import Mathlib

/-!
Verification of the rustls pluggable crypto core: the `Output` digest value
type and `Hash`/`Context` interfaces (src/rustls/src/crypto/hash.rs), the
ring-backed SHA-256/SHA-384 instantiation with precomputed empty-input
digests (src/rustls/src/crypto/ring/hash.rs), and the KeyExchange /
builder-continuation framework (src/rustls/src/crypto/mod.rs).

The underlying digest computation delegated to the external ring crate is
modelled by an executable FIPS 180-4 implementation of SHA-256 and SHA-384:
words are `Nat` reduced mod 2^32 / 2^64, an incremental context carries a
chaining value, a partial-block buffer and a running length, exactly the
shape of an incremental Merkle-Damgard hash.
-/

namespace Rustls

/-- HashAlgorithm identifiers (from crate::msgs::enums), restricted to the
two variants the backend instantiates. -/
inductive HashAlgorithm where
  | SHA256
  | SHA384
  deriving DecidableEq, Repr

/-- Maximum supported hash output size (crypto/hash.rs HASH_MAX_OUTPUT):
supports up to SHA512. -/
def HASH_MAX_OUTPUT : Nat := 64

/-- Embedding of crypto::hash::Output: a fixed 64-byte buffer plus a
used-length field. The buffer list always has length HASH_MAX_OUTPUT. -/
structure Output where
  buf : List Nat
  used : Nat
  deriving DecidableEq, Repr

/-- Embedding of Output::new. The Rust code copies `bytes` into the prefix of
a zeroed 64-byte array via `copy_from_slice`, which panics when
`bytes.len() > 64`; the panic is modelled as `none`. -/
def Output.new (bytes : List Nat) : Option Output :=
  if bytes.length ≤ HASH_MAX_OUTPUT then
    some ⟨bytes ++ List.replicate (HASH_MAX_OUTPUT - bytes.length) 0, bytes.length⟩
  else
    none

/-- Embedding of the AsRef impl for Output: the read-only view
`&self.buf[..self.used]`. -/
def Output.asRef (o : Output) : List Nat :=
  o.buf.take o.used

/-! ## SHA-256 / SHA-384 primitive model

Modelled from the spec: the concrete digest algorithms behind
`ring::digest::SHA256` and `ring::digest::SHA384` (the external primitive
library is not part of this repository); implemented per FIPS 180-4. -/

/-- Word modulus for 32-bit arithmetic. -/
def M32 : Nat := 4294967296

/-- Word modulus for 64-bit arithmetic. -/
def M64 : Nat := 18446744073709551616

/-- Right rotation of a 32-bit word. -/
def rotr32 (n x : Nat) : Nat :=
  ((x >>> n) ||| (x <<< (32 - n))) % M32

/-- Right rotation of a 64-bit word. -/
def rotr64 (n x : Nat) : Nat :=
  ((x >>> n) ||| (x <<< (64 - n))) % M64

/-- SHA-2 choice function. `mask` is the all-ones word. -/
def shaCh (mask x y z : Nat) : Nat :=
  (x &&& y) ^^^ ((x ^^^ mask) &&& z)

/-- SHA-2 majority function. -/
def shaMaj (x y z : Nat) : Nat :=
  (x &&& y) ^^^ (x &&& z) ^^^ (y &&& z)

/-- SHA-256 big sigma-0. -/
def bSig0 (x : Nat) : Nat := rotr32 2 x ^^^ rotr32 13 x ^^^ rotr32 22 x

/-- SHA-256 big sigma-1. -/
def bSig1 (x : Nat) : Nat := rotr32 6 x ^^^ rotr32 11 x ^^^ rotr32 25 x

/-- SHA-256 small sigma-0. -/
def sSig0 (x : Nat) : Nat := rotr32 7 x ^^^ rotr32 18 x ^^^ (x >>> 3)

/-- SHA-256 small sigma-1. -/
def sSig1 (x : Nat) : Nat := rotr32 17 x ^^^ rotr32 19 x ^^^ (x >>> 10)

/-- SHA-512 big sigma-0. -/
def bSig0w (x : Nat) : Nat := rotr64 28 x ^^^ rotr64 34 x ^^^ rotr64 39 x

/-- SHA-512 big sigma-1. -/
def bSig1w (x : Nat) : Nat := rotr64 14 x ^^^ rotr64 18 x ^^^ rotr64 41 x

/-- SHA-512 small sigma-0. -/
def sSig0w (x : Nat) : Nat := rotr64 1 x ^^^ rotr64 8 x ^^^ (x >>> 7)

/-- SHA-512 small sigma-1. -/
def sSig1w (x : Nat) : Nat := rotr64 19 x ^^^ rotr64 61 x ^^^ (x >>> 6)

/-- SHA-256 round constants. -/
def K256 : List Nat := [
  1116352408, 1899447441, 3049323471, 3921009573, 961987163, 1508970993,
  2453635748, 2870763221, 3624381080, 310598401, 607225278, 1426881987,
  1925078388, 2162078206, 2614888103, 3248222580, 3835390401, 4022224774,
  264347078, 604807628, 770255983, 1249150122, 1555081692, 1996064986,
  2554220882, 2821834349, 2952996808, 3210313671, 3336571891, 3584528711,
  113926993, 338241895, 666307205, 773529912, 1294757372, 1396182291,
  1695183700, 1986661051, 2177026350, 2456956037, 2730485921, 2820302411,
  3259730800, 3345764771, 3516065817, 3600352804, 4094571909, 275423344,
  430227734, 506948616, 659060556, 883997877, 958139571, 1322822218,
  1537002063, 1747873779, 1955562222, 2024104815, 2227730452, 2361852424,
  2428436474, 2756734187, 3204031479, 3329325298]

/-- SHA-512 round constants. -/
def K512 : List Nat := [
  4794697086780616226, 8158064640168781261, 13096744586834688815, 16840607885511220156,
  4131703408338449720, 6480981068601479193, 10538285296894168987, 12329834152419229976,
  15566598209576043074, 1334009975649890238, 2608012711638119052, 6128411473006802146,
  8268148722764581231, 9286055187155687089, 11230858885718282805, 13951009754708518548,
  16472876342353939154, 17275323862435702243, 1135362057144423861, 2597628984639134821,
  3308224258029322869, 5365058923640841347, 6679025012923562964, 8573033837759648693,
  10970295158949994411, 12119686244451234320, 12683024718118986047, 13788192230050041572,
  14330467153632333762, 15395433587784984357, 489312712824947311, 1452737877330783856,
  2861767655752347644, 3322285676063803686, 5560940570517711597, 5996557281743188959,
  7280758554555802590, 8532644243296465576, 9350256976987008742, 10552545826968843579,
  11727347734174303076, 12113106623233404929, 14000437183269869457, 14369950271660146224,
  15101387698204529176, 15463397548674623760, 17586052441742319658, 1182934255886127544,
  1847814050463011016, 2177327727835720531, 2830643537854262169, 3796741975233480872,
  4115178125766777443, 5681478168544905931, 6601373596472566643, 7507060721942968483,
  8399075790359081724, 8693463985226723168, 9568029438360202098, 10144078919501101548,
  10430055236837252648, 11840083180663258601, 13761210420658862357, 14299343276471374635,
  14566680578165727644, 15097957966210449927, 16922976911328602910, 17689382322260857208,
  500013540394364858, 748580250866718886, 1242879168328830382, 1977374033974150939,
  2944078676154940804, 3659926193048069267, 4368137639120453308, 4836135668995329356,
  5532061633213252278, 6448918945643986474, 6902733635092675308, 7801388544844847127]

/-- SHA-256 initial chaining value. -/
def initH256 : List Nat := [
  1779033703, 3144134277, 1013904242, 2773480762,
  1359893119, 2600822924, 528734635, 1541459225]

/-- SHA-384 initial chaining value (64-bit words). -/
def initH384 : List Nat := [
  14680500436340154072, 7105036623409894663, 10473403895298186519, 1526699215303891257,
  7436329637833083697, 10282925794625328401, 15784041429090275239, 5167115440072839076]

/-- Big-endian encoding of `n` into exactly `k` bytes. -/
def beBytes (k n : Nat) : List Nat :=
  match k with
  | 0 => []
  | k + 1 => beBytes k (n / 256) ++ [n % 256]

/-- Fuel-driven worker for `bytesToWords`; structural recursion on the fuel
keeps the definition kernel-reducible. -/
def bytesToWordsF (wb : Nat) : Nat → List Nat → List Nat
  | 0, _ => []
  | fuel + 1, bytes =>
      if 0 < wb ∧ wb ≤ bytes.length then
        (bytes.take wb).foldl (fun acc b => acc * 256 + b) 0 ::
          bytesToWordsF wb fuel (bytes.drop wb)
      else
        []

/-- Split a byte list into big-endian words of byte-width `wb`; trailing bytes
that do not fill a word are dropped (blocks fed in are always whole). -/
def bytesToWords (wb : Nat) (bytes : List Nat) : List Nat :=
  bytesToWordsF wb bytes.length bytes

/-- Message-schedule extension: append `n` further words, each derived from
the words 2, 7, 15 and 16 positions back, reduced mod `M`. -/
def schedExtend (M : Nat) (s0 s1 : Nat → Nat) : Nat → List Nat → List Nat
  | 0, w => w
  | n + 1, w =>
      let l := w.length
      schedExtend M s0 s1 n
        (w ++ [(s1 (w.getD (l - 2) 0) + w.getD (l - 7) 0 +
                s0 (w.getD (l - 15) 0) + w.getD (l - 16) 0) % M])

/-- One SHA-2 round on an 8-word working state, for word modulus `M` with the
given big-sigma functions; `kw` pairs the round constant with the schedule
word. -/
def shaRound (M : Nat) (B0 B1 : Nat → Nat) (st : List Nat) (kw : Nat × Nat) : List Nat :=
  match st with
  | [a, b, c, d, e, f, g, h] =>
      let t1 := (h + B1 e + shaCh (M - 1) e f g + kw.1 + kw.2) % M
      let t2 := (B0 a + shaMaj a b c) % M
      [(t1 + t2) % M, a, b, c, (d + t1) % M, e, f, g]
  | other => other

/-- Generic SHA-2 block compression: schedule the block, run the rounds, add
the result into the chaining value. -/
def shaCompress (M wb rounds : Nat) (B0 B1 s0 s1 : Nat → Nat) (K : List Nat)
    (chain block : List Nat) : List Nat :=
  let w := schedExtend M s0 s1 (rounds - 16) (bytesToWords wb block)
  let st := (K.zip w).foldl (shaRound M B0 B1) chain
  (chain.zip st).map (fun p => (p.1 + p.2) % M)

/-- SHA-256 compression function. -/
def compress256 (chain block : List Nat) : List Nat :=
  shaCompress M32 4 64 bSig0 bSig1 sSig0 sSig1 K256 chain block

/-- SHA-512-family compression function. -/
def compress512 (chain block : List Nat) : List Nat :=
  shaCompress M64 8 80 bSig0w bSig1w sSig0w sSig1w K512 chain block

/-- Merkle-Damgard padding: the 0x80 marker, zeros to a block boundary, then
the bit length in a big-endian field of `lenField` bytes; `bl` is the block
length in bytes. -/
def mdPad (bl lenField len : Nat) : List Nat :=
  0x80 :: List.replicate ((bl + (bl - lenField - 1) - len % bl) % bl) 0 ++
    beBytes lenField (len * 8)

/-- Fuel-driven worker for `processAll`; structural recursion on the fuel
keeps the definition kernel-reducible. -/
def processAllF (bl : Nat) (compress : List Nat → List Nat → List Nat) :
    Nat → List Nat → List Nat → List Nat × List Nat
  | 0, chain, t => (chain, t)
  | fuel + 1, chain, t =>
      if 0 < bl ∧ bl ≤ t.length then
        processAllF bl compress fuel (compress chain (t.take bl)) (t.drop bl)
      else
        (chain, t)

/-- Consume whole `bl`-byte blocks of `t` into the chaining value via
`compress`, returning the new chaining value and the remaining partial
block. This models the absorb loop of an incremental digest context. -/
def processAll (bl : Nat) (compress : List Nat → List Nat → List Nat)
    (chain t : List Nat) : List Nat × List Nat :=
  processAllF bl compress t.length chain t

/-- An algorithm descriptor playing the role of `ring::digest::Algorithm`:
block length, initial chaining value, compression function, padding and the
final chain-to-bytes serialization (which truncates for SHA-384). -/
structure MDSpec where
  blockLen : Nat
  initChain : List Nat
  compress : List Nat → List Nat → List Nat
  pad : Nat → List Nat
  digestOf : List Nat → List Nat
  output_len : Nat

/-- Incremental digest context state, the model of `ring::digest::Context`:
chaining value, buffered partial block, total bytes consumed. -/
structure MDCtx where
  chain : List Nat
  buf : List Nat
  len : Nat
  deriving DecidableEq, Repr

/-- Fresh zero-state context (`ring::digest::Context::new`). -/
def MDSpec.start (s : MDSpec) : MDCtx :=
  ⟨s.initChain, [], 0⟩

/-- Model of `ring::digest::Context::update`: absorb the data, consuming any
whole blocks now available. -/
def MDSpec.update (s : MDSpec) (c : MDCtx) (d : List Nat) : MDCtx :=
  let p := processAll s.blockLen s.compress c.chain (c.buf ++ d)
  ⟨p.1, p.2, c.len + d.length⟩

/-- Digest bytes produced by finishing the context: pad, absorb the final
block(s), serialize the chaining value. -/
def MDSpec.finishBytes (s : MDSpec) (c : MDCtx) : List Nat :=
  s.digestOf (processAll s.blockLen s.compress c.chain (c.buf ++ s.pad c.len)).1

/-- Embedding of crypto::ring Context::finish: `self.0.finish().into()`,
where the From impl is `Output::new(digest.as_ref())`. -/
def MDSpec.finish (s : MDSpec) (c : MDCtx) : Option Output :=
  Output.new (s.finishBytes c)

/-- Embedding of crypto::ring Context::fork: `Self(self.0.clone())` — a copy
of the pure context state. -/
def MDCtx.fork (c : MDCtx) : MDCtx := c

/-- Embedding of crypto::ring Context::fork_finish:
`self.0.clone().finish().into()` — finish a clone, leaving the context
untouched (pure state, so the clone is the value itself). -/
def MDSpec.fork_finish (s : MDSpec) (c : MDCtx) : Option Output :=
  s.finish c.fork

/-- Embedding of crypto::ring Hash::compute: a fresh ring context, one
update, then finish. -/
def MDSpec.compute (s : MDSpec) (bytes : List Nat) : Option Output :=
  s.finish (s.update s.start bytes)

/-- The SHA-256 algorithm descriptor (model of `ring::digest::SHA256`). -/
def sha256Alg : MDSpec where
  blockLen := 64
  initChain := initH256
  compress := compress256
  pad := mdPad 64 8
  digestOf := fun chain => (chain.map (beBytes 4)).flatten
  output_len := 32

/-- The SHA-384 algorithm descriptor (model of `ring::digest::SHA384`):
SHA-512 machinery, distinct initial chain, digest truncated to the first six
64-bit words. -/
def sha384Alg : MDSpec where
  blockLen := 128
  initChain := initH384
  compress := compress512
  pad := mdPad 128 16
  digestOf := fun chain => ((chain.take 6).map (beBytes 8)).flatten
  output_len := 48

/-! ## Embedding of src/rustls/src/crypto/ring/hash.rs -/

/-- Embedding of the crypto::ring::hash::Hash tuple struct: the underlying
ring algorithm descriptor, the HashAlgorithm identity, and the precomputed
empty-input digest literal. -/
structure RingHash where
  alg : MDSpec
  algId : HashAlgorithm
  emptyLit : List Nat

/-- Embedding of the SHA256 constant in crypto/ring/hash.rs, literal bytes
copied verbatim. -/
def SHA256 : RingHash :=
  ⟨sha256Alg, .SHA256,
   [0xe3, 0xb0, 0xc4, 0x42, 0x98, 0xfc, 0x1c, 0x14, 0x9a, 0xfb, 0xf4, 0xc8,
    0x99, 0x6f, 0xb9, 0x24, 0x27, 0xae, 0x41, 0xe4, 0x64, 0x9b, 0x93, 0x4c,
    0xa4, 0x95, 0x99, 0x1b, 0x78, 0x52, 0xb8, 0x55]⟩

/-- Embedding of the SHA384 constant in crypto/ring/hash.rs, literal bytes
copied verbatim. -/
def SHA384 : RingHash :=
  ⟨sha384Alg, .SHA384,
   [0x38, 0xb0, 0x60, 0xa7, 0x51, 0xac, 0x96, 0x38, 0x4c, 0xd9, 0x32, 0x7e,
    0xb1, 0xb1, 0xe3, 0x6a, 0x21, 0xfd, 0xb7, 0x11, 0x14, 0xbe, 0x07, 0x43,
    0x4c, 0x0c, 0xc7, 0xbf, 0x63, 0xf6, 0xe1, 0xda, 0x27, 0x4e, 0xde, 0xbf,
    0xe7, 0x6f, 0x65, 0xfb, 0xd5, 0x1a, 0xd2, 0xf1, 0x48, 0x98, 0xb9, 0x5b]⟩

/-- Embedding of ring Hash::algorithm. -/
def RingHash.algorithm (h : RingHash) : HashAlgorithm := h.algId

/-- Embedding of ring Hash::output_len (`self.0.output_len`). -/
def RingHash.output_len (h : RingHash) : Nat := h.alg.output_len

/-- Embedding of ring Hash::start: a fresh context over the algorithm. -/
def RingHash.start (h : RingHash) : MDCtx := h.alg.start

/-- Embedding of ring Hash::compute_empty, the overridden fast path:
`Output::new(self.2)` over the precomputed literal. -/
def RingHash.compute_empty (h : RingHash) : Option Output :=
  Output.new h.emptyLit

/-- Embedding of ring Hash::compute: fresh context, update, finish. -/
def RingHash.compute (h : RingHash) (bytes : List Nat) : Option Output :=
  h.alg.compute bytes

/-! ## Embedding of src/rustls/src/crypto/mod.rs: key exchange -/

/-- NamedGroup wire identifier (crate::NamedGroup, externally standardized
protocol code points), modelled as a bare number. -/
abbrev NamedGroup := Nat

/-- Embedding of crate::rand::GetRandomFailed, the unit error for an
unavailable entropy source. -/
structure GetRandomFailed where
  deriving DecidableEq, Repr

/-- Embedding of crypto::KeyExchangeError (crypto/mod.rs lines 79-85). -/
inductive KeyExchangeError where
  | UnsupportedGroup
  | KeyExchangeFailed (e : GetRandomFailed)
  deriving DecidableEq, Repr

/-- Embedding of the SupportedGroup trait object: a descriptor identified by
its named group. -/
structure SupportedGroup where
  name : NamedGroup
  deriving DecidableEq, Repr

/-- Embedding of crate::Error restricted to what this core produces: the
opaque generic failure used when a derivation callback fails. -/
inductive Error where
  | General (desc : String)
  deriving DecidableEq, Repr

/-- The fixed message of the opaque generic handshake failure; a constant,
carrying no information derived from the shared secret. -/
def kxFailMsg : String :=
  "key exchange failed"

/-- Modelled from the spec: a live key-exchange instance (the trait impl is
in the ring backend, not under src/). It holds ephemeral private material,
group identity and public key bytes. -/
structure KeyExchange where
  groupId : NamedGroup
  pubKey : List Nat
  privKey : List Nat
  deriving DecidableEq, Repr

/-- Embedding of the KeyExchange::group accessor. -/
def KeyExchange.group (kx : KeyExchange) : NamedGroup := kx.groupId

/-- Embedding of the KeyExchange::pub_key accessor. -/
def KeyExchange.pub_key (kx : KeyExchange) : List Nat := kx.pubKey

/-- Modelled from the spec: `start(group)` generates fresh ephemeral key
material for the group and fails with a random-generation error when secure
randomness is unavailable. Entropy is an explicit parameter (`none` models
an unavailable source) and `keygen` is the backend's derivation of a
private/public key pair from entropy, kept abstract. -/
def KeyExchange.start (keygen : List Nat → NamedGroup → List Nat × List Nat)
    (entropy : Option (List Nat)) (skxg : SupportedGroup) :
    Except GetRandomFailed KeyExchange :=
  match entropy with
  | none => .error ⟨⟩
  | some seed =>
      let kp := keygen seed skxg.name
      .ok ⟨skxg.name, kp.2, kp.1⟩

/-- Modelled from the spec: `choose(name, supported)` selects the first
element of `supported` whose identity matches `name`, fails with
UnsupportedGroup when none matches, and on match invokes `start`, wrapping
a random-generation failure as KeyExchangeFailed (the impl is in the ring
backend, not under src/). -/
def KeyExchange.choose (keygen : List Nat → NamedGroup → List Nat × List Nat)
    (entropy : Option (List Nat)) (name : NamedGroup)
    (supported : List SupportedGroup) : Except KeyExchangeError KeyExchange :=
  match supported.find? (fun g => g.name == name) with
  | none => .error .UnsupportedGroup
  | some g => (KeyExchange.start keygen entropy g).mapError .KeyExchangeFailed

/-- Modelled from the spec: `complete(peer, f)` consumes the exchange,
computes the shared secret internally (`agree` is the backend's group
operation on the ephemeral private key and the peer public bytes, kept
abstract), passes only that secret to the caller's derivation callback, and
maps a callback failure to the opaque generic handshake error. -/
def KeyExchange.complete (T : Type) (agree : List Nat → List Nat → List Nat)
    (kx : KeyExchange) (peer : List Nat) (f : List Nat → Except Unit T) :
    Except Error T :=
  match f (agree kx.privKey peer) with
  | .ok v => .ok v
  | .error _ => .error (.General kxFailMsg)

/-- Modelled from the spec: lifecycle states of one key-exchange instance,
Unstarted → Started → Completed | Failed (spec section 4.3). -/
inductive KxLifecycle where
  | unstarted
  | started
  | completed
  | failed
  deriving DecidableEq, Repr

/-- Modelled from the spec: the lifecycle transition relation. `start` moves
an unstarted exchange to started (or failed, on a random-generation error);
`complete` consumes a started exchange, moving it to completed (or failed).
Completed and failed are terminal: ownership transfer on `complete` leaves
no live handle. -/
inductive KxStep : KxLifecycle → KxLifecycle → Prop where
  | start_ok : KxStep .unstarted .started
  | start_failed : KxStep .unstarted .failed
  | complete_ok : KxStep .started .completed
  | complete_failed : KxStep .started .failed

/-! ## Embedding of src/rustls/src/crypto/mod.rs: builder continuation -/

/-- Opaque handle for a suites::SupportedCipherSuite entry. -/
abbrev SupportedCipherSuite := Nat

/-- Opaque handle for versions::EnabledVersions. -/
abbrev EnabledVersions := Nat

/-- Opaque handle for an Arc of a dyn verify::ServerCertVerifier. -/
abbrev ServerCertVerifier := Nat

/-- Embedding of the client::ResolvesClientCert trait object: queried for a
certificate, it may decline; `has_certs` reports whether any certificate
could ever be produced. -/
structure ResolvesClientCert where
  resolve : List Nat → Option Nat
  has_certs : Bool

/-- Modelled from the spec: crate::client::handy::FailResolveClientCert
(not under src/), the resolver installed by `with_no_client_auth` that
always declines to produce a client certificate. -/
def failResolveClientCert : ResolvesClientCert :=
  ⟨fun _ => none, false⟩

/-- Embedding of the builder::WantsVerifier state carried by the
ConfigBuilder: the accumulated suites, groups and versions. -/
structure WantsVerifier where
  cipher_suites : List SupportedCipherSuite
  kx_groups : List SupportedGroup
  versions : EnabledVersions
  deriving DecidableEq, Repr

/-- Embedding of crypto::WantsClientCert (crypto/mod.rs lines 127-132). -/
structure WantsClientCert where
  cipher_suites : List SupportedCipherSuite
  kx_groups : List SupportedGroup
  versions : EnabledVersions
  verifier : ServerCertVerifier
  deriving DecidableEq, Repr

/-- Embedding of the ClientConfig fields populated by the builder
continuation (resumption, key log and the secret-extraction flag are
out-of-scope opaque defaults and are omitted). -/
structure ClientConfig where
  cipher_suites : List SupportedCipherSuite
  kx_groups : List SupportedGroup
  alpn_protocols : List (List Nat)
  max_fragment_size : Option Nat
  client_auth_cert_resolver : ResolvesClientCert
  versions : EnabledVersions
  enable_sni : Bool
  verifier : ServerCertVerifier
  enable_early_data : Bool

/-- Embedding of with_custom_certificate_verifier (crypto/mod.rs lines
104-120): move to WantsClientCert, carrying the accumulated fields forward
and adding the verifier. -/
def with_custom_certificate_verifier (b : WantsVerifier)
    (verifier : ServerCertVerifier) : WantsClientCert :=
  ⟨b.cipher_suites, b.kx_groups, b.versions, verifier⟩

/-- Embedding of with_client_cert_resolver (crypto/mod.rs lines 142-163):
build the ClientConfig, carrying the accumulated fields and the verifier
forward and filling the remaining fields with the literal defaults the code
writes. -/
def with_client_cert_resolver (b : WantsClientCert)
    (client_auth_cert_resolver : ResolvesClientCert) : ClientConfig where
  cipher_suites := b.cipher_suites
  kx_groups := b.kx_groups
  alpn_protocols := []
  max_fragment_size := none
  client_auth_cert_resolver := client_auth_cert_resolver
  versions := b.versions
  enable_sni := true
  verifier := b.verifier
  enable_early_data := false

/-- Embedding of with_no_client_auth (crypto/mod.rs lines 137-139):
delegate to with_client_cert_resolver with the always-declining resolver. -/
def with_no_client_auth (b : WantsClientCert) : ClientConfig :=
  with_client_cert_resolver b failResolveClientCert

/-- States of the builder continuation, for reachability reasoning. -/
inductive BuilderState where
  | wantsVerifier (b : WantsVerifier)
  | wantsClientCert (b : WantsClientCert)
  | config (c : ClientConfig)

/-- The transitions the builder continuation exposes: exactly the three
operations of crypto/mod.rs. A Config is only ever produced from a
WantsClientCert, which is only ever produced by supplying a verifier. -/
inductive BuilderStep : BuilderState → BuilderState → Prop where
  | custom_verifier (b : WantsVerifier) (v : ServerCertVerifier) :
      BuilderStep (.wantsVerifier b)
        (.wantsClientCert (with_custom_certificate_verifier b v))
  | no_client_auth (b : WantsClientCert) :
      BuilderStep (.wantsClientCert b) (.config (with_no_client_auth b))
  | cert_resolver (b : WantsClientCert) (r : ResolvesClientCert) :
      BuilderStep (.wantsClientCert b) (.config (with_client_cert_resolver b r))

/-! ## Lemmas about the absorb loop -/

/-- Fuel irrelevance for the absorb loop: any fuel at least the input length
computes the same result. -/
theorem processAllF_mono (bl : Nat) (compress : List Nat → List Nat → List Nat) :
    ∀ (fuel fuelB : Nat) (chain t : List Nat),
      t.length ≤ fuel → t.length ≤ fuelB →
      processAllF bl compress fuel chain t = processAllF bl compress fuelB chain t := by
  intro fuel
  induction fuel with
  | zero =>
      intro fuelB chain t h hB
      have ht : t = [] := List.eq_nil_of_length_eq_zero (Nat.le_zero.mp h)
      subst ht
      cases fuelB with
      | zero => rfl
      | succ m =>
          simp only [processAllF, List.length_nil]
          rw [if_neg (by omega)]
  | succ n ih =>
      intro fuelB chain t h hB
      cases fuelB with
      | zero =>
          have ht : t = [] := List.eq_nil_of_length_eq_zero (Nat.le_zero.mp hB)
          subst ht
          simp only [processAllF, List.length_nil]
          rw [if_neg (by omega)]
      | succ m =>
          simp only [processAllF]
          by_cases hc : 0 < bl ∧ bl ≤ t.length
          · rw [if_pos hc, if_pos hc]
            exact ih m (compress chain (t.take bl)) (t.drop bl)
              (by simp only [List.length_drop]; omega)
              (by simp only [List.length_drop]; omega)
          · rw [if_neg hc, if_neg hc]

/-- One unfolding step of the absorb loop when a whole block is available. -/
theorem processAll_step (bl : Nat) (compress : List Nat → List Nat → List Nat)
    (chain t : List Nat) (h1 : 0 < bl) (h2 : bl ≤ t.length) :
    processAll bl compress chain t =
      processAll bl compress (compress chain (t.take bl)) (t.drop bl) := by
  unfold processAll
  obtain ⟨k, hk⟩ : ∃ k, t.length = k + 1 := ⟨t.length - 1, by omega⟩
  rw [hk]
  simp only [processAllF]
  rw [if_pos ⟨h1, h2⟩]
  exact processAllF_mono bl compress k (t.drop bl).length _ (t.drop bl)
    (by simp only [List.length_drop]; omega) (Nat.le_refl _)

/-- The absorb loop leaves its input untouched when no whole block is
available. -/
theorem processAll_small (bl : Nat) (compress : List Nat → List Nat → List Nat)
    (chain t : List Nat) (h : ¬(0 < bl ∧ bl ≤ t.length)) :
    processAll bl compress chain t = (chain, t) := by
  unfold processAll
  cases hn : t.length with
  | zero => rfl
  | succ k =>
      simp only [processAllF]
      rw [if_neg h]

/-- Continuation law of the absorb loop, bounded-length induction form:
absorbing `t ++ q` equals absorbing `t`, then absorbing the leftover buffer
followed by `q`. -/
theorem processAll_append_aux (bl : Nat)
    (compress : List Nat → List Nat → List Nat) (q : List Nat) :
    ∀ (n : Nat) (chain t : List Nat), t.length ≤ n →
      processAll bl compress chain (t ++ q) =
        processAll bl compress (processAll bl compress chain t).1
          ((processAll bl compress chain t).2 ++ q) := by
  intro n
  induction n with
  | zero =>
      intro chain t h
      have ht : t = [] := List.eq_nil_of_length_eq_zero (Nat.le_zero.mp h)
      subst ht
      rw [processAll_small bl compress chain []
        (by simp only [List.length_nil]; omega)]
  | succ n ih =>
      intro chain t h
      by_cases hc : 0 < bl ∧ bl ≤ t.length
      · have htake : (t ++ q).take bl = t.take bl := by
          rw [List.take_append_eq_append_take]
          have hz : bl - t.length = 0 := by omega
          simp [hz]
        have hdrop : (t ++ q).drop bl = t.drop bl ++ q := by
          rw [List.drop_append_eq_append_drop]
          have hz : bl - t.length = 0 := by omega
          simp [hz]
        rw [processAll_step bl compress chain (t ++ q) hc.1
          (by simp only [List.length_append]; omega)]
        rw [htake, hdrop]
        rw [processAll_step bl compress chain t hc.1 hc.2]
        exact ih (compress chain (t.take bl)) (t.drop bl)
          (by simp only [List.length_drop]; omega)
      · rw [processAll_small bl compress chain t hc]

/-- Continuation law of the absorb loop. -/
theorem processAll_append (bl : Nat)
    (compress : List Nat → List Nat → List Nat) (chain t q : List Nat) :
    processAll bl compress chain (t ++ q) =
      processAll bl compress (processAll bl compress chain t).1
        ((processAll bl compress chain t).2 ++ q) :=
  processAll_append_aux bl compress q t.length chain t (Nat.le_refl _)

/-- Two successive updates are one update on the concatenation: the heart of
the prefix/fork laws, valid for any algorithm descriptor. -/
theorem MDSpec.update_append (s : MDSpec) (c : MDCtx) (P Q : List Nat) :
    s.update (s.update c P) Q = s.update c (P ++ Q) := by
  simp only [MDSpec.update]
  rw [show c.buf ++ (P ++ Q) = (c.buf ++ P) ++ Q from (List.append_assoc _ _ _).symm]
  rw [processAll_append s.blockLen s.compress c.chain (c.buf ++ P) Q]
  simp only [MDCtx.mk.injEq, List.length_append]
  exact ⟨trivial, trivial, by omega⟩

/-- Reachability sink: no builder transition leaves a finished Config, so a
run that has reached a Config is over. -/
theorem builder_config_terminal (c : ClientConfig) (s : BuilderState)
    (h : Relation.ReflTransGen BuilderStep (.config c) s) : s = .config c := by
  induction h with
  | refl => rfl
  | tail hab hbc ih =>
      subst ih
      cases hbc

/-- Inversion: the only transition out of a WantsVerifier state supplies a
verifier. -/
theorem builderStep_from_wantsVerifier (b : WantsVerifier) (s : BuilderState)
    (h : BuilderStep (.wantsVerifier b) s) :
    ∃ v, s = .wantsClientCert (with_custom_certificate_verifier b v) := by
  cases h with
  | custom_verifier _ v => exact ⟨v, rfl⟩

/-- Inversion: the only transitions out of a WantsClientCert state are the
two client-cert finishers. -/
theorem builderStep_from_wantsClientCert (b : WantsClientCert)
    (s : BuilderState) (h : BuilderStep (.wantsClientCert b) s) :
    s = .config (with_no_client_auth b) ∨
      ∃ r, s = .config (with_client_cert_resolver b r) := by
  cases h with
  | no_client_auth => exact Or.inl rfl
  | cert_resolver _ r => exact Or.inr ⟨r, rfl⟩

/-! ## Claim theorems -/

set_option maxRecDepth 100000

/-- C1: for each supported backend constant (SHA256 and SHA384) the
precomputed empty-input literal returned by compute_empty is byte-for-byte
the value compute produces on the empty input. -/
theorem compute_empty_eq_compute_nil :
    SHA256.compute_empty = SHA256.compute [] ∧
    SHA384.compute_empty = SHA384.compute [] :=
  ⟨by decide, by decide⟩

/-- C2: prefix/fork law — for any split S = P ++ Q, hashing P, forking, then
hashing Q in the fork and finishing equals the one-shot digest of S, for
both backend algorithms. -/
theorem fork_prefix_law (P Q : List Nat) :
    SHA256.alg.finish (SHA256.alg.update ((SHA256.alg.update SHA256.start P).fork) Q) =
      SHA256.compute (P ++ Q) ∧
    SHA384.alg.finish (SHA384.alg.update ((SHA384.alg.update SHA384.start P).fork) Q) =
      SHA384.compute (P ++ Q) :=
  ⟨congrArg SHA256.alg.finish (MDSpec.update_append SHA256.alg SHA256.alg.start P Q),
   congrArg SHA384.alg.finish (MDSpec.update_append SHA384.alg SHA384.alg.start P Q)⟩

/-- C3: non-destructive checkpoint — after updating with X, fork_finish
returns the digest of X while the context stays live and equivalent in
effect: a further update with Y and a finish yield the digest of X ++ Y;
for both backend algorithms. -/
theorem fork_finish_checkpoint (X Y : List Nat) :
    (SHA256.alg.fork_finish (SHA256.alg.update SHA256.start X) = SHA256.compute X ∧
      SHA256.alg.finish (SHA256.alg.update (SHA256.alg.update SHA256.start X) Y) =
        SHA256.compute (X ++ Y)) ∧
    (SHA384.alg.fork_finish (SHA384.alg.update SHA384.start X) = SHA384.compute X ∧
      SHA384.alg.finish (SHA384.alg.update (SHA384.alg.update SHA384.start X) Y) =
        SHA384.compute (X ++ Y)) :=
  ⟨⟨rfl, congrArg SHA256.alg.finish (MDSpec.update_append SHA256.alg SHA256.alg.start X Y)⟩,
   ⟨rfl, congrArg SHA384.alg.finish (MDSpec.update_append SHA384.alg SHA384.alg.start X Y)⟩⟩

/-- C4: the SHA-256 backend's compute_empty returns exactly the 32-byte
value e3b0c442 98fc1c14 9afbf4c8 996fb924 27ae41e4 649b934c a495991b
7852b855, which is also the SHA-256 digest of the empty input. -/
theorem sha256_compute_empty_literal :
    SHA256.compute_empty.map Output.asRef =
      some [0xe3, 0xb0, 0xc4, 0x42, 0x98, 0xfc, 0x1c, 0x14,
            0x9a, 0xfb, 0xf4, 0xc8, 0x99, 0x6f, 0xb9, 0x24,
            0x27, 0xae, 0x41, 0xe4, 0x64, 0x9b, 0x93, 0x4c,
            0xa4, 0x95, 0x99, 0x1b, 0x78, 0x52, 0xb8, 0x55] ∧
    (SHA256.compute []).map Output.asRef =
      some [0xe3, 0xb0, 0xc4, 0x42, 0x98, 0xfc, 0x1c, 0x14,
            0x9a, 0xfb, 0xf4, 0xc8, 0x99, 0x6f, 0xb9, 0x24,
            0x27, 0xae, 0x41, 0xe4, 0x64, 0x9b, 0x93, 0x4c,
            0xa4, 0x95, 0x99, 0x1b, 0x78, 0x52, 0xb8, 0x55] :=
  ⟨by decide, by decide⟩

/-- C5: choose returns UnsupportedGroup whenever no candidate matches the
requested group, in particular on the empty candidate list, and on the
first match invokes start on that group, wrapping a random-generation
failure of start as KeyExchangeFailed. -/
theorem choose_spec (keygen : List Nat → NamedGroup → List Nat × List Nat)
    (entropy : Option (List Nat)) (name : NamedGroup)
    (supported : List SupportedGroup) :
    ((∀ g ∈ supported, g.name ≠ name) →
      KeyExchange.choose keygen entropy name supported =
        .error .UnsupportedGroup) ∧
    KeyExchange.choose keygen entropy name [] = .error .UnsupportedGroup ∧
    (∀ g, supported.find? (fun x => x.name == name) = some g →
      KeyExchange.choose keygen entropy name supported =
        (KeyExchange.start keygen entropy g).mapError .KeyExchangeFailed) := by
  refine ⟨?_, rfl, ?_⟩
  · intro h
    unfold KeyExchange.choose
    have hnone : supported.find? (fun g => g.name == name) = none := by
      rw [List.find?_eq_none]
      intro x hx
      simpa using h x hx
    rw [hnone]
  · intro g hg
    unfold KeyExchange.choose
    rw [hg]

/-- Witness for C5 at a concrete non-matching candidate list. -/
theorem choose_spec_witness :
    KeyExchange.choose (fun s _ => (s, s)) none 24 [⟨23⟩] =
      .error .UnsupportedGroup :=
  (choose_spec (fun s _ => (s, s)) none 24 [⟨23⟩]).1 (by decide)

/-- C6: complete invokes the derivation callback exactly once with the
internally computed shared secret — its result depends only on the value of
the callback at that secret, a success returns exactly the value the
callback produced, and a callback failure is replaced by the constant
opaque error, which carries nothing derived from the secret — and the
lifecycle relation leaves no transition out of the completed state, so a
consumed exchange admits no second complete. -/
theorem complete_spec :
    (∀ (T : Type) (agree : List Nat → List Nat → List Nat) (kx : KeyExchange)
        (peer : List Nat) (f g : List Nat → Except Unit T),
        f (agree kx.privKey peer) = g (agree kx.privKey peer) →
        KeyExchange.complete T agree kx peer f =
          KeyExchange.complete T agree kx peer g) ∧
    (∀ (T : Type) (agree : List Nat → List Nat → List Nat) (kx : KeyExchange)
        (peer : List Nat) (f : List Nat → Except Unit T) (v : T),
        f (agree kx.privKey peer) = .ok v →
        KeyExchange.complete T agree kx peer f = .ok v) ∧
    (∀ (T : Type) (agree : List Nat → List Nat → List Nat) (kx : KeyExchange)
        (peer : List Nat) (f : List Nat → Except Unit T) (e : Unit),
        f (agree kx.privKey peer) = .error e →
        KeyExchange.complete T agree kx peer f = .error (.General kxFailMsg)) ∧
    (∀ s, ¬ KxStep .completed s) := by
  refine ⟨?_, ?_, ?_, ?_⟩
  · intro T agree kx peer f g h
    unfold KeyExchange.complete
    rw [h]
  · intro T agree kx peer f v h
    unfold KeyExchange.complete
    rw [h]
  · intro T agree kx peer f e h
    unfold KeyExchange.complete
    rw [h]
  · intro s h
    cases h

/-- Witness for C6 at a concrete exchange and an always-failing callback. -/
theorem complete_spec_witness :
    KeyExchange.complete Nat (fun a b => a ++ b) ⟨29, [1], [2]⟩ [3]
        (fun _ => .error ()) = .error (.General kxFailMsg) :=
  complete_spec.2.2.1 Nat (fun a b => a ++ b) ⟨29, [1], [2]⟩ [3]
    (fun _ => .error ()) () rfl

/-- C7: every Output value produced by the constructor satisfies
used ≤ HASH_MAX_OUTPUT, and its read-only view has length exactly used. -/
theorem output_invariant (bytes : List Nat) (o : Output)
    (h : Output.new bytes = some o) :
    o.used ≤ HASH_MAX_OUTPUT ∧ o.asRef.length = o.used := by
  unfold Output.new at h
  by_cases hle : bytes.length ≤ HASH_MAX_OUTPUT
  · rw [if_pos hle] at h
    obtain rfl := Option.some.inj h
    refine ⟨hle, ?_⟩
    simp only [Output.asRef, List.length_take, List.length_append,
      List.length_replicate]
    simp only [HASH_MAX_OUTPUT] at hle ⊢
    omega
  · rw [if_neg hle] at h
    exact absurd h (by simp)

/-- Witness for C7 at a concrete three-byte input. -/
theorem output_invariant_witness :
    (Output.mk ([1, 2, 3] ++ List.replicate 61 0) 3).used ≤ HASH_MAX_OUTPUT ∧
    (Output.mk ([1, 2, 3] ++ List.replicate 61 0) 3).asRef.length =
      (Output.mk ([1, 2, 3] ++ List.replicate 61 0) 3).used :=
  output_invariant [1, 2, 3] _ (by decide)

/-- C8: with_custom_certificate_verifier moves WantsVerifier to
WantsClientCert carrying cipher_suites, kx_groups and versions forward
verbatim and adding only the supplied verifier, and it is the sole path
toward a Config: every builder run from a WantsVerifier state to a Config
factors through it, followed by one of the two client-cert finishers. -/
theorem with_custom_certificate_verifier_spec :
    (∀ (b : WantsVerifier) (v : ServerCertVerifier),
      (with_custom_certificate_verifier b v).cipher_suites = b.cipher_suites ∧
      (with_custom_certificate_verifier b v).kx_groups = b.kx_groups ∧
      (with_custom_certificate_verifier b v).versions = b.versions ∧
      (with_custom_certificate_verifier b v).verifier = v) ∧
    (∀ (b : WantsVerifier) (cfg : ClientConfig),
      Relation.ReflTransGen BuilderStep (.wantsVerifier b) (.config cfg) →
      ∃ v, cfg = with_no_client_auth (with_custom_certificate_verifier b v) ∨
        ∃ r, cfg = with_client_cert_resolver (with_custom_certificate_verifier b v) r) := by
  refine ⟨fun b v => ⟨rfl, rfl, rfl, rfl⟩, ?_⟩
  intro b cfg hpath
  rcases hpath.cases_head with heq | ⟨mid, hstep, hrest⟩
  · exact absurd heq (by simp)
  · obtain ⟨v, rfl⟩ := builderStep_from_wantsVerifier b mid hstep
    rcases hrest.cases_head with heq2 | ⟨mid2, hstep2, hrest2⟩
    · exact absurd heq2 (by simp)
    · rcases builderStep_from_wantsClientCert _ mid2 hstep2 with h2 | ⟨r, h2⟩
      · subst h2
        have hend := builder_config_terminal _ _ hrest2
        injection hend with hcfg
        exact ⟨v, Or.inl hcfg⟩
      · subst h2
        have hend := builder_config_terminal _ _ hrest2
        injection hend with hcfg
        exact ⟨v, Or.inr ⟨r, hcfg⟩⟩

/-- Witness for C8 along a concrete two-step builder run. -/
theorem with_custom_certificate_verifier_spec_witness :
    ∃ v, with_no_client_auth (with_custom_certificate_verifier ⟨[1], [⟨29⟩], 2⟩ 5) =
        with_no_client_auth (with_custom_certificate_verifier ⟨[1], [⟨29⟩], 2⟩ v) ∨
      ∃ r, with_no_client_auth (with_custom_certificate_verifier ⟨[1], [⟨29⟩], 2⟩ 5) =
        with_client_cert_resolver (with_custom_certificate_verifier ⟨[1], [⟨29⟩], 2⟩ v) r :=
  with_custom_certificate_verifier_spec.2 ⟨[1], [⟨29⟩], 2⟩ _
    (Relation.ReflTransGen.head (BuilderStep.custom_verifier _ 5)
      (Relation.ReflTransGen.single (BuilderStep.no_client_auth _)))

/-- C9: with_no_client_auth builds exactly the Config that
with_client_cert_resolver builds from the always-declining resolver, and
the installed resolver declines every query and reports that it has no
certificates. -/
theorem with_no_client_auth_spec (b : WantsClientCert) :
    with_no_client_auth b = with_client_cert_resolver b failResolveClientCert ∧
    (∀ q, (with_no_client_auth b).client_auth_cert_resolver.resolve q = none) ∧
    (with_no_client_auth b).client_auth_cert_resolver.has_certs = false :=
  ⟨rfl, fun _ => rfl, rfl⟩

/-- C10: the Output constructor succeeds exactly on inputs of length at
most 64 — beyond that the slice copy panics, modelled as none — and on
success it round-trips: the read-only view returns the input bytes exactly;
both compiled-in empty-digest literals satisfy the precondition. -/
theorem output_new_roundtrip (bytes : List Nat) :
    ((Output.new bytes).isSome ↔ bytes.length ≤ HASH_MAX_OUTPUT) ∧
    (∀ o, Output.new bytes = some o → o.asRef = bytes) ∧
    SHA256.emptyLit.length ≤ HASH_MAX_OUTPUT ∧
    SHA384.emptyLit.length ≤ HASH_MAX_OUTPUT := by
  refine ⟨?_, ?_, by decide, by decide⟩
  · unfold Output.new
    by_cases hle : bytes.length ≤ HASH_MAX_OUTPUT
    · simp [hle]
    · simp [hle]
  · intro o h
    unfold Output.new at h
    by_cases hle : bytes.length ≤ HASH_MAX_OUTPUT
    · rw [if_pos hle] at h
      obtain rfl := Option.some.inj h
      simp only [Output.asRef]
      exact List.take_left bytes _
    · rw [if_neg hle] at h
      exact absurd h (by simp)

/-- Witness for C10: the constructor round-trips a concrete one-byte
input. -/
theorem output_new_roundtrip_witness :
    (Output.mk ([7] ++ List.replicate 63 0) 1).asRef = [7] :=
  (output_new_roundtrip [7]).2.1 _ (by decide)

end Rustls

